import Mathlib

/-!
Verification of the ACF archive format engine.

This file is a shallow embedding, in Lean 4, of the ACF (Archive Compressed
File) engine implemented in `src/acf.cc` / `include/acf.hh`, together with
proofs and refutations of a fixed list of specification claims.

Modelling conventions:

* Machine bytes are `Nat` values (< 256 where produced by the engine); byte
  buffers and whole archive files are `List Nat`.
* `uint32_t` / `uint64_t` / `uint16_t` / `uint8_t` arithmetic is `Nat`
  arithmetic with explicit `% 256^k` at the points where the C++ code
  truncates (casts and little-endian stores).
* Filesystem paths are modelled after enumeration and relativization: a path
  is its list of components (`List (List Nat)`, each component a byte
  string).  `std::filesystem::path` comparison (used by `std::sort` in
  `ACFArchiver::Create`) is component-wise lexicographic (`pathLt` below),
  with each component compared by character values (`bytesLt`).
* Platform metadata calls (`GetFileAttributesW`, DOS time packing) are
  modelled as input fields (`dostime`, `attr`) carried by each enumerated
  entry; the code truncates the attribute DWORD to `uint8_t` and we model
  that truncation explicitly.
* The Zstandard streaming compressor is a third-party library, not part of
  this repository; it is modelled abstractly as a pair of functions
  `compress`/`decompress` on byte strings.  Claims that need the library's
  contract take the round-trip hypothesis `∀ l, decompress (compress l) = l`.
* Fallible operations return `Except ACFError`; the error constructors
  follow the specification's error taxonomy, mapped from the
  `std::runtime_error` messages thrown by the code.
-/

set_option maxRecDepth 8192

/-- Equality of fallible results is decidable (needed to evaluate the
reader on concrete archives). -/
instance {ε α : Type} [DecidableEq ε] [DecidableEq α] : DecidableEq (Except ε α)
  | .error e, .error e' =>
    if h : e = e' then .isTrue (by rw [h]) else .isFalse (by simp [h])
  | .error _, .ok _ => .isFalse (by simp)
  | .ok _, .error _ => .isFalse (by simp)
  | .ok a, .ok a' =>
    if h : a = a' then .isTrue (by rw [h]) else .isFalse (by simp [h])

namespace ACF

/-- `ACF_MAGIC` constant from `acf.hh`. -/
def ACF_MAGIC : Nat := 0x39464341

/-- `ACF_VERSION` constant from `acf.hh`. -/
def ACF_VERSION : Nat := 0x10000900

/-! ## CRC32 codec (`acf.cc`, anonymous namespace)

`crc32_generate_table` computes each table entry from the index by eight
rounds of the reflected polynomial step; `crc32_update` folds the table step
over the data with pre- and post-complement; `crc32` is the one-shot form. -/

/-- One round of the table-generation loop body:
`crc = (crc & 1) ? (crc >> 1) ^ 0xEDB88320 : (crc >> 1)`. -/
def crc32_tab_round (crc : Nat) : Nat :=
  if crc &&& 1 = 1 then (crc >>> 1) ^^^ 0xEDB88320 else crc >>> 1

/-- `j`-fold iteration of `crc32_tab_round` (the inner `for (j = 0; j < 8; ...)`). -/
def crc32_tab_iter : Nat → Nat → Nat
  | 0, crc => crc
  | j + 1, crc => crc32_tab_iter j (crc32_tab_round crc)

/-- Entry `i` of the precomputed table `crc32_tab` from `crc32_generate_table`. -/
def crc32_tab (i : Nat) : Nat := crc32_tab_iter 8 i

/-- Loop body of `crc32_update`:
`crc = crc32_tab[(crc ^ p[i]) & 0xFF] ^ (crc >> 8)`. -/
def crc32_step (crc b : Nat) : Nat :=
  crc32_tab ((crc ^^^ b) &&& 0xFF) ^^^ (crc >>> 8)

/-- `crc32_update(uint32_t crc, const void* data, size_t len)`:
complement, fold the table step over the bytes, complement again
(`~crc` on `uint32_t` is `crc ^^^ 0xFFFFFFFF`). -/
def crc32_update (crc : Nat) (data : List Nat) : Nat :=
  (data.foldl crc32_step (crc ^^^ 0xFFFFFFFF)) ^^^ 0xFFFFFFFF

/-- `crc32(const void* data, size_t len) { return crc32_update(0, data, len); }` -/
def crc32 (data : List Nat) : Nat := crc32_update 0 data

/-! ## Little-endian byte serialization

The C++ code serializes the packed structs `ACFHeader` and `ACFEntryData` by
`memcpy`; all fields are little-endian (x86) with no padding
(`#pragma pack(1)`).  `leBytes k v` is the `k`-byte little-endian image of
`v` (truncating, as a store of a wider value would); `parseLE k` consumes
`k` bytes and returns the decoded value together with the rest of the
buffer. -/

/-- Little-endian bytes of a `k`-byte store of `v`. -/
def leBytes : Nat → Nat → List Nat
  | 0, _ => []
  | k + 1, v => v % 256 :: leBytes k (v / 256)

/-- Consume `k` bytes from the front of a buffer, little-endian.
Missing bytes read as zero (the CRC-validated reader never reads past the
end; the unchecked reader's behaviour past the end is not relied upon). -/
def parseLE : Nat → List Nat → Nat × List Nat
  | 0, l => (0, l)
  | _ + 1, [] => (0, [])
  | k + 1, b :: l =>
    let p := parseLE k l
    (b + 256 * p.1, p.2)

/-! ## Data model (`acf.hh`)

`ACFHeader` and `ACFEntryData` are the two packed on-disk structs.  Field
values are `Nat`; the serializers truncate to the field widths exactly as a
little-endian store does. -/

/-- The file header (`struct ACFHeader`, `#pragma pack(1)`; 32 bytes). -/
structure ACFHeader where
  magic : Nat
  version : Nat
  centralDirOffset : Nat
  entryCount : Nat
  centralDirCRC32 : Nat
  reserved : Nat
deriving DecidableEq

/-- The 36-byte entry descriptor (`struct ACFEntryData`, `#pragma pack(1)`).
`type` is the `EntryType` byte: 0 = File, 1 = Directory. -/
structure ACFEntryData where
  type : Nat
  originalSize : Nat
  compressedSize : Nat
  dataOffset : Nat
  crc32 : Nat
  filedatetime : Nat
  fileattribute : Nat
  pathLength : Nat
deriving DecidableEq

/-- Byte image of `ACFHeader` (the `memcpy` of the packed struct):
magic u32, version u32, centralDirOffset u64, entryCount u64,
centralDirCRC32 u32, reserved u32. -/
def serializeHeader (h : ACFHeader) : List Nat :=
  leBytes 4 h.magic ++ (leBytes 4 h.version ++ (leBytes 8 h.centralDirOffset ++
    (leBytes 8 h.entryCount ++ (leBytes 4 h.centralDirCRC32 ++ leBytes 4 h.reserved))))

/-- Byte image of `ACFEntryData`: type u8, originalSize u64, compressedSize
u64, dataOffset u64, crc32 u32, filedatetime u32, fileattribute u8,
pathLength u16. -/
def serializeEntry (e : ACFEntryData) : List Nat :=
  leBytes 1 e.type ++ (leBytes 8 e.originalSize ++ (leBytes 8 e.compressedSize ++
    (leBytes 8 e.dataOffset ++ (leBytes 4 e.crc32 ++ (leBytes 4 e.filedatetime ++
      (leBytes 1 e.fileattribute ++ leBytes 2 e.pathLength))))))

/-- Read a header from the front of an archive (the initial
`archiveFile.read(..., sizeof(ACFHeader))`). -/
def parseHeader (a : List Nat) : ACFHeader :=
  let p1 := parseLE 4 a
  let p2 := parseLE 4 p1.2
  let p3 := parseLE 8 p2.2
  let p4 := parseLE 8 p3.2
  let p5 := parseLE 4 p4.2
  let p6 := parseLE 4 p5.2
  ⟨p1.1, p2.1, p3.1, p4.1, p5.1, p6.1⟩

/-- Read an entry descriptor from the front of a buffer, returning the
descriptor and the remaining bytes (36 consumed). -/
def parseEntryData (l : List Nat) : ACFEntryData × List Nat :=
  let p1 := parseLE 1 l
  let p2 := parseLE 8 p1.2
  let p3 := parseLE 8 p2.2
  let p4 := parseLE 8 p3.2
  let p5 := parseLE 4 p4.2
  let p6 := parseLE 4 p5.2
  let p7 := parseLE 1 p6.2
  let p8 := parseLE 2 p7.2
  (⟨p1.1, p2.1, p3.1, p4.1, p5.1, p6.1, p7.1, p8.1⟩, p8.2)

/-- Field ranges under which an `ACFHeader` survives a store/load round trip. -/
def HeaderInRange (h : ACFHeader) : Prop :=
  h.magic < 256 ^ 4 ∧ h.version < 256 ^ 4 ∧ h.centralDirOffset < 256 ^ 8 ∧
  h.entryCount < 256 ^ 8 ∧ h.centralDirCRC32 < 256 ^ 4 ∧ h.reserved < 256 ^ 4

instance (h : ACFHeader) : Decidable (HeaderInRange h) := by
  unfold HeaderInRange; infer_instance

/-- Field ranges under which an `ACFEntryData` survives a store/load round trip. -/
def EntryInRange (e : ACFEntryData) : Prop :=
  e.type < 256 ∧ e.originalSize < 256 ^ 8 ∧ e.compressedSize < 256 ^ 8 ∧
  e.dataOffset < 256 ^ 8 ∧ e.crc32 < 256 ^ 4 ∧ e.filedatetime < 256 ^ 4 ∧
  e.fileattribute < 256 ∧ e.pathLength < 256 ^ 2

instance (e : ACFEntryData) : Decidable (EntryInRange e) := by
  unfold EntryInRange; infer_instance

/-! ## Archive writer (`ACFArchiver::Create`, acf.cc:93-268)

The filesystem-facing part of `Create` (existence checks, recursive
enumeration, deduplication by `fs::path`, `fs::relative` against the base
path) yields two lists: the collected directories and the collected regular
files, each with the relative component path and the platform metadata the
code queries for it.  The model starts from those lists.  `std::sort` on
`std::filesystem::path` compares component-wise (each component by its
character values), i.e. the lexicographic order on `List (List Nat)`. -/

/-- A collected regular file: relative path components (after
`fs::relative(path, basePath)`), its bytes, and the platform metadata the
code reads for it (`FileTimeToDosDateTime` of the last write time and
`GetFileAttributesW`). -/
structure FileInput where
  path : List (List Nat)
  content : List Nat
  dostime : Nat
  attr : Nat
deriving DecidableEq

/-- A collected directory: relative path components and platform metadata. -/
structure DirInput where
  path : List (List Nat)
  dostime : Nat
  attr : Nat
deriving DecidableEq

/-- Join path components with the preferred separator `'\'` (0x5C), as
`make_preferred().wstring()` renders an `internalBasePath / relativePath`
concatenation. -/
def joinPath : List (List Nat) → List Nat
  | [] => []
  | [c] => c
  | c :: cs => c ++ 92 :: joinPath cs

/-- Internal path string of a file entry:
`internalBasePath / relative(path, basePath)`, separators normalized. -/
def filePathString (ibase : List (List Nat)) (f : FileInput) : List Nat :=
  joinPath (ibase ++ f.path)

/-- Internal path string of a directory entry: as for files, plus the
trailing `'\'` appended when the string is nonempty and does not already
end in `'\'`. -/
def dirPathString (ibase : List (List Nat)) (d : DirInput) : List Nat :=
  let p := joinPath (ibase ++ d.path)
  if p = [] then p
  else if p.getLast? = some 92 then p
  else p ++ [92]

/-- The descriptor/path pair `Create` builds for a directory
(acf.cc:144-168): type Directory, zeroed sizes/offset/crc, the DOS
date/time, the attribute DWORD truncated to `uint8_t`, and the path length
truncated to `uint16_t`. -/
def dirEntryOf (ibase : List (List Nat)) (d : DirInput) : ACFEntryData × List Nat :=
  let ip := dirPathString ibase d
  (⟨1, 0, 0, 0, 0, d.dostime, d.attr % 256, ip.length % 65536⟩, ip)

/-- The descriptor/path pair `Create` builds for a file (acf.cc:173-247)
whose compressed stream starts at archive offset `off`: type File,
`originalSize` = file size, `compressedSize` = length of the compressor
output, `dataOffset` = `off`, the block-wise accumulated CRC32 of the
original bytes, metadata as for directories. -/
def fileEntryOf (compress : List Nat → List Nat) (ibase : List (List Nat))
    (off : Nat) (f : FileInput) : ACFEntryData × List Nat :=
  let ip := filePathString ibase f
  (⟨0, f.content.length, (compress f.content).length, off, crc32 f.content,
      f.dostime, f.attr % 256, ip.length % 65536⟩, ip)

/-- Descriptor/path pairs for the sorted files, threading the archive write
position (`archiveFile.tellp()`) through the per-file compression loop. -/
def fileEntriesFrom (compress : List Nat → List Nat) (ibase : List (List Nat)) :
    Nat → List FileInput → List (ACFEntryData × List Nat)
  | _, [] => []
  | off, f :: fs =>
    fileEntryOf compress ibase off f ::
      fileEntriesFrom compress ibase (off + (compress f.content).length) fs

/-- The archive body: concatenation of the per-file compressor outputs, in
file order. -/
def bodyBytes (compress : List Nat → List Nat) (fs : List FileInput) : List Nat :=
  (fs.map fun f => compress f.content).flatten

/-- The central-directory buffer (acf.cc:252-257): each descriptor's 36
bytes immediately followed by its path bytes, in entry order. -/
def cdSerialize (ps : List (ACFEntryData × List Nat)) : List Nat :=
  (ps.map fun ep => serializeEntry ep.1 ++ ep.2).flatten

/-- Byte-wise lexicographic comparison of two byte strings (the value
comparison of the `wstring` components underlying `fs::path::compare`; also
the "lexicographic byte order" of the specification's ordering invariant). -/
def bytesLt : List Nat → List Nat → Bool
  | [], [] => false
  | [], _ :: _ => true
  | _ :: _, [] => false
  | x :: xs, y :: ys =>
    if x < y then true else if y < x then false else bytesLt xs ys

/-- `std::filesystem::path` comparison, as used by `std::sort` in
`Create`: lexicographic over the path *components* (not over the joined
string). -/
def pathLt : List (List Nat) → List (List Nat) → Bool
  | [], [] => false
  | [], _ :: _ => true
  | _ :: _, [] => false
  | x :: xs, y :: ys =>
    if bytesLt x y then true else if bytesLt y x then false else pathLt xs ys

/-- `std::sort` with comparator `pathLt` on the extracted path: the result
is ordered so that `pathLt (path b) (path a)` fails for consecutive
elements (`insertionSort` with the comparator's negated swap realizes the
same guarantee; inputs are deduplicated by `Create`, so ties do not arise
in the runs the claims quantify over). -/
def sortByPath {α : Type} (path : α → List (List Nat)) (l : List α) : List α :=
  List.insertionSort (fun a b => pathLt (path b) (path a) = false) l

/-- Everything `Create` produces: the final archive bytes, the patched
header, and the in-memory central directory (descriptor list and path
strings). -/
structure CreateResult where
  archive : List Nat
  header : ACFHeader
  centralDirectory : List ACFEntryData
  pathStrings : List (List Nat)
deriving DecidableEq

/-- The central directory `Create` assembles: directory entries for the
sorted directories, then file entries for the sorted files, with file data
offsets starting right after the 32-byte header. -/
def createEntries (compress : List Nat → List Nat) (ibase : List (List Nat))
    (dirs : List DirInput) (files : List FileInput) :
    List (ACFEntryData × List Nat) :=
  (sortByPath DirInput.path dirs).map (dirEntryOf ibase) ++
    fileEntriesFrom compress ibase 32 (sortByPath FileInput.path files)

/-- `ACFArchiver::Create` (acf.cc:93-268), starting from the enumerated
inputs: write a placeholder header (32 bytes), stream each sorted file
through the compressor, append the central directory, patch the header
with `centralDirOffset = tellp`, `entryCount`, and the CRC32 of the
central-directory buffer. -/
def create (compress : List Nat → List Nat) (ibase : List (List Nat))
    (dirs : List DirInput) (files : List FileInput) : CreateResult :=
  let body := bodyBytes compress (sortByPath FileInput.path files)
  let entries := createEntries compress ibase dirs files
  let cdBuf := cdSerialize entries
  let hdr : ACFHeader :=
    ⟨ACF_MAGIC, ACF_VERSION, 32 + body.length, entries.length, crc32 cdBuf, 0⟩
  ⟨serializeHeader hdr ++ body ++ cdBuf, hdr, entries.map Prod.fst,
    entries.map Prod.snd⟩

/-! ## Archive reader (`ACFArchiver::List` / `ExtractData` / `ExtractAll`)

Error kinds follow the specification's taxonomy; the implementation throws
`std::runtime_error` with a distinct message for each kind:
`"Could not open archive file"` → `IoError`, `"Not a valid ACF archive"` →
`UnknownFormat`, `"Central directory CRC32 mismatch"` → `BadArchive`,
`"CRC32 mismatch for file"` → `CRCMismatch`, `"File not found in archive"`
→ `NotFound`, `"Cannot extract data from a directory entry"` →
`InvalidOperation`, ZSTD failures → `CompressorError`. -/

/-- Error taxonomy (spec §7). -/
inductive ACFError
  | IoError
  | UnknownFormat
  | BadArchive
  | CRCMismatch
  | NotFound
  | InvalidOperation
  | CompressorError
deriving DecidableEq

/-- The central-directory walk in `List` (acf.cc:558-570): up to
`entryCount` iterations; `break` (not an error) when fewer than 36 bytes
remain before a descriptor or fewer than `pathLength` bytes remain before
a path. -/
def parseCD : Nat → List Nat → List (ACFEntryData × List Nat)
  | 0, _ => []
  | n + 1, buf =>
    if 36 ≤ buf.length then
      let pe := parseEntryData buf
      if pe.1.pathLength ≤ pe.2.length then
        (pe.1, pe.2.take pe.1.pathLength) :: parseCD n (pe.2.drop pe.1.pathLength)
      else []
    else []

/-- `ACFArchiver::List` (acf.cc:525-573): read the header, check the magic,
read `[centralDirOffset, EOF)`, compare its CRC32 against the header field,
then walk the buffer. -/
def listArchive (a : List Nat) : Except ACFError (List (ACFEntryData × List Nat)) :=
  let hdr := parseHeader a
  if hdr.magic ≠ ACF_MAGIC then .error .UnknownFormat
  else
    let cdBuf := a.drop hdr.centralDirOffset
    if crc32 cdBuf ≠ hdr.centralDirCRC32 then .error .BadArchive
    else .ok (parseCD hdr.entryCount cdBuf)

/-- The entry scan in `ExtractData` (acf.cc:467-478): starting at
`centralDirOffset`, read a descriptor and its path directly from the file
for up to `entryCount` iterations and stop at the first path equal to the
requested name.  No CRC or bounds validation is performed. -/
def extractScan (a : List Nat) (target : List Nat) : Nat → Nat → Option ACFEntryData
  | _, 0 => none
  | pos, n + 1 =>
    let pe := parseEntryData (a.drop pos)
    if pe.2.take pe.1.pathLength = target then some pe.1
    else extractScan a target (pos + 36 + pe.1.pathLength) n

/-- `ACFArchiver::ExtractData` (acf.cc:449-523): check the magic, scan the
central directory for the first entry whose path equals `name`
(`NotFound` if none), refuse non-File entries (`InvalidOperation`), stream
`[dataOffset, dataOffset + compressedSize)` through the decompressor, and
compare the CRC32 of the output against the stored value
(`CRCMismatch`). -/
def extractData (decompress : List Nat → List Nat) (a : List Nat)
    (name : List Nat) : Except ACFError (List Nat) :=
  let hdr := parseHeader a
  if hdr.magic ≠ ACF_MAGIC then .error .UnknownFormat
  else
    match extractScan a name hdr.centralDirOffset hdr.entryCount with
    | none => .error .NotFound
    | some e =>
      if e.type ≠ 0 then .error .InvalidOperation
      else
        let data := decompress ((a.drop e.dataOffset).take e.compressedSize)
        if crc32 data ≠ e.crc32 then .error .CRCMismatch
        else .ok data

/-- The per-entry loop of `ExtractAll` (acf.cc:349-384): directories create
directories (no file output); files call `ExtractData` with the stored path
and write the bytes to `outputDir / path`; any exception from `ExtractData`
propagates and stops the loop.  The output is the ordered list of
(path, bytes) file writes. -/
def extractEntries (decompress : List Nat → List Nat) (a : List Nat) :
    List (ACFEntryData × List Nat) → Except ACFError (List (List Nat × List Nat))
  | [] => .ok []
  | (e, p) :: rest =>
    if e.type = 1 then extractEntries decompress a rest
    else if e.type = 0 then
      match extractData decompress a p with
      | .error err => .error err
      | .ok data =>
        match extractEntries decompress a rest with
        | .error err => .error err
        | .ok outs => .ok ((p, data) :: outs)
    else extractEntries decompress a rest

/-- `ACFArchiver::ExtractAll` (acf.cc:339-388): `List` first (validating
the archive), then extract every entry in central-directory order. -/
def extractAll (decompress : List Nat → List Nat) (a : List Nat) :
    Except ACFError (List (List Nat × List Nat)) :=
  match listArchive a with
  | .error e => .error e
  | .ok entries => extractEntries decompress a entries

/-! ### Specification-side helpers for the reader theorems -/

/-- First central-directory entry whose path equals `name` (the entry
`ExtractData`'s scan stops at). -/
def findEntry (ps : List (ACFEntryData × List Nat)) (name : List Nat) :
    Option ACFEntryData :=
  (ps.find? fun ep => ep.2 == name).map Prod.fst

/-- What `ExtractData` does once it has located entry `e`: type check,
decompress the data range, CRC check. -/
def extractEntrySpec (decompress : List Nat → List Nat) (a : List Nat)
    (e : ACFEntryData) : Except ACFError (List Nat) :=
  if e.type ≠ 0 then .error .InvalidOperation
  else
    let data := decompress ((a.drop e.dataOffset).take e.compressedSize)
    if crc32 data ≠ e.crc32 then .error .CRCMismatch
    else .ok data

/-- A descriptor/path pair whose serialized form parses back to itself:
all fields within their on-disk widths and `pathLength` equal to the actual
path length. -/
def WFPair (ep : ACFEntryData × List Nat) : Prop :=
  EntryInRange ep.1 ∧ ep.1.pathLength = ep.2.length

instance (ep : ACFEntryData × List Nat) : Decidable (WFPair ep) := by
  unfold WFPair; infer_instance

/-- An archive whose header region declares the central directory `ps`
laid out contiguously at `centralDirOffset` up to EOF.  This is the
well-formedness the unchecked `ExtractData` scan needs to stay within the
file (the byte ranges past `centralDirOffset` are exactly the serialized
entries). -/
def WFArchive (a : List Nat) (ps : List (ACFEntryData × List Nat)) : Prop :=
  (parseHeader a).magic = ACF_MAGIC ∧
  (parseHeader a).entryCount = ps.length ∧
  a.drop (parseHeader a).centralDirOffset = cdSerialize ps ∧
  ∀ ep ∈ ps, WFPair ep

instance (a : List Nat) (ps : List (ACFEntryData × List Nat)) :
    Decidable (WFArchive a ps) := by
  unfold WFArchive; infer_instance

/-- Side conditions under which `create`'s output parses back exactly:
every internal path fits the 16-bit `pathLength` field, every DOS time
fits its 32-bit field (as the `uint32_t` returned by
`FileTimeToDosDateTime` always does), every file size fits 64 bits, and
the archive as a whole stays below 2^64 bytes so that offsets and counts
fit their 64-bit fields. -/
def CreateInputsOk (compress : List Nat → List Nat) (ibase : List (List Nat))
    (dirs : List DirInput) (files : List FileInput) : Prop :=
  (∀ d ∈ dirs, (dirPathString ibase d).length ≤ 65535 ∧ d.dostime < 256 ^ 4) ∧
  (∀ f ∈ files, (filePathString ibase f).length ≤ 65535 ∧ f.dostime < 256 ^ 4 ∧
    f.content.length < 256 ^ 8) ∧
  (create compress ibase dirs files).archive.length < 256 ^ 8

instance (compress : List Nat → List Nat) (ibase : List (List Nat))
    (dirs : List DirInput) (files : List FileInput) :
    Decidable (CreateInputsOk compress ibase dirs files) := by
  unfold CreateInputsOk; infer_instance

/-- The file writes `ExtractAll` performs on an archive produced by
`create`: one `(path, contents)` pair per sorted file, in order. -/
def createOuts (ibase : List (List Nat)) (files : List FileInput) :
    List (List Nat × List Nat) :=
  (sortByPath FileInput.path files).map fun f => (filePathString ibase f, f.content)

/-! ### Concrete inputs used in the boundary-behaviour theorems -/

/-- A 32-byte archive whose header declares one entry over an empty central
directory whose CRC matches (`crc32 [] = 0`): `[centralDirOffset, EOF)` is
empty, so parsing the declared descriptor would overrun. -/
def truncatedCDArchive : List Nat :=
  serializeHeader ⟨ACF_MAGIC, ACF_VERSION, 32, 1, 0, 0⟩

/-- Input file at path `a` with contents `hi`, DOS time 5, attribute 7. -/
def fileA : FileInput := ⟨[[97]], [104, 105], 5, 7⟩

/-- Archive produced by `create` (identity compressor model) for `fileA`. -/
def archiveA : List Nat := (create id [] [] [fileA]).archive

/-- `archiveA` with one byte flipped inside the central directory: byte 63
is the first `filedatetime` byte of the only entry descriptor (descriptor
starts at `centralDirOffset = 34`, `filedatetime` at offset 29 within it);
the stored value 5 becomes 6. -/
def archiveAFlipped : List Nat := archiveA.set 63 6

/-- Input file `a/c` (two components). -/
def fileAC : FileInput := ⟨[[97], [99]], [], 0, 0⟩

/-- Input file `a!b` (one component; `'!'` = 0x21 sorts before `'\'` = 0x5C
in byte order, but `fs::path` comparison is component-wise). -/
def fileAB : FileInput := ⟨[[97, 33, 98]], [], 0, 0⟩

/-- A file whose normalized internal path is 65536 bytes long. -/
def hugePathFile : FileInput := ⟨[List.replicate 65536 97], [], 0, 0⟩

/-- Input directory at path `d` with DOS time 1, attribute 2. -/
def dirD : DirInput := ⟨[[100]], 1, 2⟩

/-- Hand-built central directory: a Directory entry `d\` and a File entry
`a` whose 1-byte compressed data (byte 200) sits at offset 32. -/
def wfEntries : List (ACFEntryData × List Nat) :=
  [(⟨1, 0, 0, 0, 0, 0, 0, 2⟩, [100, 92]),
   (⟨0, 1, 1, 32, crc32 [200], 0, 0, 1⟩, [97])]

/-- Archive bytes for `wfEntries`: header, one body byte, central directory
at offset 33. -/
def wfArchiveBytes : List Nat :=
  serializeHeader ⟨ACF_MAGIC, ACF_VERSION, 33, 2, crc32 (cdSerialize wfEntries), 0⟩ ++
    (200 :: cdSerialize wfEntries)

/-- Central directory with two File entries sharing the path `a`: the first
decodes to `[5]` (offset 32), the second to `[6]` (offset 33). -/
def dupEntries : List (ACFEntryData × List Nat) :=
  [(⟨0, 1, 1, 32, crc32 [5], 0, 0, 1⟩, [97]),
   (⟨0, 1, 1, 33, crc32 [6], 0, 0, 1⟩, [97])]

/-- Archive bytes for `dupEntries`: header, two body bytes, central
directory at offset 34. -/
def dupArchiveBytes : List Nat :=
  serializeHeader ⟨ACF_MAGIC, ACF_VERSION, 34, 2, crc32 (cdSerialize dupEntries), 0⟩ ++
    (5 :: 6 :: cdSerialize dupEntries)

/-! ## Proof layer: serialization and CRC lemmas -/

theorem leBytes_length (k v : Nat) : (leBytes k v).length = k := by
  induction k generalizing v with
  | zero => rfl
  | succ k ih => simp [leBytes, ih]

theorem parseLE_snd (k : Nat) (l : List Nat) : (parseLE k l).2 = l.drop k := by
  induction k generalizing l with
  | zero => rfl
  | succ k ih =>
    cases l with
    | nil => simp [parseLE]
    | cons b l => simp [parseLE, ih]

theorem parseLE_leBytes (k v : Nat) (r : List Nat) :
    parseLE k (leBytes k v ++ r) = (v % 256 ^ k, r) := by
  induction k generalizing v with
  | zero => simp [parseLE, leBytes, Nat.mod_one]
  | succ k ih =>
    rw [show leBytes (k + 1) v ++ r = v % 256 :: (leBytes k (v / 256) ++ r) from rfl]
    simp only [parseLE, ih]
    have hv : v % 256 + 256 * (v / 256 % 256 ^ k) = v % 256 ^ (k + 1) := by
      rw [pow_succ, mul_comm (256 ^ k) 256, Nat.mod_mul]
    rw [hv]

theorem parseLE_leBytes_of_lt (k v : Nat) (r : List Nat) (h : v < 256 ^ k) :
    parseLE k (leBytes k v ++ r) = (v, r) := by
  rw [parseLE_leBytes, Nat.mod_eq_of_lt h]

/-! ### CRC32 range facts -/

theorem xor_lt_two_pow {x y n : Nat} (hx : x < 2 ^ n) (hy : y < 2 ^ n) :
    x ^^^ y < 2 ^ n :=
  Nat.bitwise_lt hx hy

theorem shiftRight_lt_two_pow {x n k : Nat} (hx : x < 2 ^ n) : x >>> k < 2 ^ n := by
  rw [Nat.shiftRight_eq_div_pow]
  exact lt_of_le_of_lt (Nat.div_le_self _ _) hx

theorem crc32_tab_round_lt {c : Nat} (h : c < 2 ^ 32) : crc32_tab_round c < 2 ^ 32 := by
  unfold crc32_tab_round
  have h1 : c >>> 1 < 2 ^ 32 := shiftRight_lt_two_pow h
  split
  · exact xor_lt_two_pow h1 (by norm_num)
  · exact h1

theorem crc32_tab_iter_lt {c : Nat} (j : Nat) (h : c < 2 ^ 32) :
    crc32_tab_iter j c < 2 ^ 32 := by
  induction j generalizing c with
  | zero => exact h
  | succ j ih => exact ih (crc32_tab_round_lt h)

theorem crc32_tab_lt {i : Nat} (h : i < 2 ^ 32) : crc32_tab i < 2 ^ 32 :=
  crc32_tab_iter_lt 8 h

theorem crc32_step_lt {c : Nat} (b : Nat) (h : c < 2 ^ 32) :
    crc32_step c b < 2 ^ 32 := by
  unfold crc32_step
  refine xor_lt_two_pow (crc32_tab_lt ?_) (shiftRight_lt_two_pow h)
  exact lt_of_le_of_lt (Nat.and_le_right) (by norm_num)

theorem crc32_foldl_lt {c : Nat} (data : List Nat) (h : c < 2 ^ 32) :
    data.foldl crc32_step c < 2 ^ 32 := by
  induction data generalizing c with
  | nil => exact h
  | cons b data ih => exact ih (crc32_step_lt b h)

theorem crc32_update_lt {c : Nat} (data : List Nat) (h : c < 2 ^ 32) :
    crc32_update c data < 2 ^ 32 := by
  unfold crc32_update
  exact xor_lt_two_pow (crc32_foldl_lt data (xor_lt_two_pow h (by norm_num))) (by norm_num)

theorem crc32_lt (data : List Nat) : crc32 data < 2 ^ 32 :=
  crc32_update_lt data (by norm_num)

/-- `sizeof(ACFHeader)` with `#pragma pack(1)` is 4+4+8+8+4+4 = 32 bytes
(the 36-byte figure in the specification is the size of the entry
descriptor, not of the file header). -/
theorem serializeHeader_length (h : ACFHeader) : (serializeHeader h).length = 32 := by
  simp [serializeHeader, leBytes_length]

theorem serializeEntry_length (e : ACFEntryData) : (serializeEntry e).length = 36 := by
  simp [serializeEntry, leBytes_length]

theorem parseHeader_serializeHeader (h : ACFHeader) (r : List Nat)
    (hr : HeaderInRange h) :
    parseHeader (serializeHeader h ++ r) = h := by
  obtain ⟨h1, h2, h3, h4, h5, h6⟩ := hr
  unfold parseHeader serializeHeader
  simp only [List.append_assoc, parseLE_leBytes_of_lt _ _ _ h1,
    parseLE_leBytes_of_lt _ _ _ h2, parseLE_leBytes_of_lt _ _ _ h3,
    parseLE_leBytes_of_lt _ _ _ h4, parseLE_leBytes_of_lt _ _ _ h5,
    parseLE_leBytes_of_lt _ _ _ h6]

theorem parseEntryData_serializeEntry (e : ACFEntryData) (r : List Nat)
    (hr : EntryInRange e) :
    parseEntryData (serializeEntry e ++ r) = (e, r) := by
  obtain ⟨h1, h2, h3, h4, h5, h6, h7, h8⟩ := hr
  unfold parseEntryData serializeEntry
  simp only [List.append_assoc,
    parseLE_leBytes_of_lt _ _ _ (show e.type < 256 ^ 1 by simpa using h1),
    parseLE_leBytes_of_lt _ _ _ h2, parseLE_leBytes_of_lt _ _ _ h3,
    parseLE_leBytes_of_lt _ _ _ h4, parseLE_leBytes_of_lt _ _ _ h5,
    parseLE_leBytes_of_lt _ _ _ h6,
    parseLE_leBytes_of_lt _ _ _ (show e.fileattribute < 256 ^ 1 by simpa using h7),
    parseLE_leBytes_of_lt _ _ _ h8]

theorem parseEntryData_snd (l : List Nat) : (parseEntryData l).2 = l.drop 36 := by
  unfold parseEntryData
  simp only [parseLE_snd, List.drop_drop]

/-! ### Central-directory layout lemmas -/

theorem cdSerialize_nil : cdSerialize [] = [] := rfl

theorem cdSerialize_cons (ep : ACFEntryData × List Nat)
    (ps : List (ACFEntryData × List Nat)) :
    cdSerialize (ep :: ps) = serializeEntry ep.1 ++ (ep.2 ++ cdSerialize ps) := by
  simp [cdSerialize, List.append_assoc]

theorem length_le_cdSerialize_length (ps : List (ACFEntryData × List Nat)) :
    ps.length ≤ (cdSerialize ps).length := by
  induction ps with
  | nil => simp [cdSerialize]
  | cons ep ps ih =>
    rw [cdSerialize_cons]
    simp only [List.length_cons, List.length_append, serializeEntry_length]
    omega

theorem parseCD_cdSerialize (ps : List (ACFEntryData × List Nat))
    (h : ∀ ep ∈ ps, WFPair ep) :
    parseCD ps.length (cdSerialize ps) = ps := by
  induction ps with
  | nil => rfl
  | cons ep ps ih =>
    obtain ⟨hir, hpl⟩ := h ep (List.mem_cons_self _ _)
    have hparse : parseEntryData (cdSerialize (ep :: ps)) =
        (ep.1, ep.2 ++ cdSerialize ps) := by
      rw [cdSerialize_cons, parseEntryData_serializeEntry _ _ hir]
    have hlen : 36 ≤ (cdSerialize (ep :: ps)).length := by
      rw [cdSerialize_cons]
      simp [serializeEntry_length]
    show parseCD (ps.length + 1) (cdSerialize (ep :: ps)) = ep :: ps
    simp only [parseCD, hparse, hlen, if_true, hpl]
    rw [if_pos (by simp), List.take_left, List.drop_left,
      ih fun x hx => h x (List.mem_cons_of_mem _ hx)]

/-! ### The unchecked entry scan of `ExtractData` -/

theorem extractScan_eq_findEntry (a target : List Nat)
    (ps : List (ACFEntryData × List Nat)) (pos : Nat)
    (hdrop : a.drop pos = cdSerialize ps) (hwf : ∀ ep ∈ ps, WFPair ep) :
    extractScan a target pos ps.length = findEntry ps target := by
  induction ps generalizing pos with
  | nil => simp [extractScan, findEntry]
  | cons ep ps ih =>
    obtain ⟨hir, hpl⟩ := hwf ep (List.mem_cons_self _ _)
    have hparse : parseEntryData (a.drop pos) = (ep.1, ep.2 ++ cdSerialize ps) := by
      rw [hdrop, cdSerialize_cons, parseEntryData_serializeEntry _ _ hir]
    show extractScan a target pos (ps.length + 1) = _
    simp only [extractScan, hparse, hpl, List.take_left]
    by_cases hmatch : ep.2 = target
    · rw [if_pos hmatch]
      unfold findEntry
      rw [List.find?_cons_of_pos _ (by simpa using hmatch)]
      rfl
    · rw [if_neg hmatch]
      have hdrop' : a.drop (pos + 36 + ep.2.length) = cdSerialize ps := by
        rw [Nat.add_assoc, ← List.drop_drop, hdrop, cdSerialize_cons,
          ← List.append_assoc]
        exact List.drop_left' (by simp [serializeEntry_length])
      rw [ih _ hdrop' fun x hx => hwf x (List.mem_cons_of_mem _ hx)]
      unfold findEntry
      rw [List.find?_cons_of_neg _ (by simpa using hmatch)]

/-- `ExtractData` under a well-formed central directory: header check, then
the behaviour is determined by the first entry whose path matches. -/
theorem extractData_eq_spec (d : List Nat → List Nat) (a name : List Nat)
    (ps : List (ACFEntryData × List Nat)) (hwf : WFArchive a ps) :
    extractData d a name =
      match findEntry ps name with
      | none => .error .NotFound
      | some e => extractEntrySpec d a e := by
  obtain ⟨hm, hc, hd, hw⟩ := hwf
  unfold extractData
  rw [if_neg (by simp [hm]), hc, extractScan_eq_findEntry a name ps _ hd hw]
  cases findEntry ps name with
  | none => rfl
  | some e => rfl

/-! ### Writer layout lemmas -/

theorem bodyBytes_nil (c : List Nat → List Nat) : bodyBytes c [] = [] := rfl

theorem bodyBytes_cons (c : List Nat → List Nat) (f : FileInput)
    (fs : List FileInput) :
    bodyBytes c (f :: fs) = c f.content ++ bodyBytes c fs := by
  simp [bodyBytes]

theorem fileEntriesFrom_map_snd (c : List Nat → List Nat) (ib : List (List Nat)) :
    ∀ (fs : List FileInput) (off : Nat),
      (fileEntriesFrom c ib off fs).map Prod.snd = fs.map (filePathString ib)
  | [], _ => rfl
  | f :: fs, off => by
    simp only [fileEntriesFrom, List.map_cons, fileEntriesFrom_map_snd c ib fs]
    rfl

/-- Every entry `Create` builds for a file records that file's metadata, and
its `[dataOffset, dataOffset + compressedSize)` range in any byte string
whose suffix at `off` starts with the body is exactly that file's
compressor output. -/
theorem fileEntriesFrom_mem (c : List Nat → List Nat) (ib : List (List Nat)) :
    ∀ (fs : List FileInput) (off : Nat) (a tail : List Nat),
      a.drop off = bodyBytes c fs ++ tail →
      ∀ ep ∈ fileEntriesFrom c ib off fs,
        ∃ f ∈ fs, ∃ o, ep = fileEntryOf c ib o f ∧
          (a.drop o).take (c f.content).length = c f.content ∧
          o + (c f.content).length ≤ off + (bodyBytes c fs).length := by
  intro fs
  induction fs with
  | nil => intro off a tail _ ep hep; simp [fileEntriesFrom] at hep
  | cons f fs ih =>
    intro off a tail hdrop ep hep
    rw [bodyBytes_cons, List.append_assoc] at hdrop
    rcases List.mem_cons.mp hep with hhead | htail
    · refine ⟨f, List.mem_cons_self _ _, off, hhead, ?_, ?_⟩
      · rw [hdrop, List.take_left]
      · rw [bodyBytes_cons]
        simp only [List.length_append]
        omega
    · have hdrop' : a.drop (off + (c f.content).length) = bodyBytes c fs ++ tail := by
        rw [← List.drop_drop, hdrop, List.drop_left]
      obtain ⟨g, hg, o, hshape, hslice, hbound⟩ :=
        ih (off + (c f.content).length) a tail hdrop' ep htail
      refine ⟨g, List.mem_cons_of_mem _ hg, o, hshape, hslice, ?_⟩
      rw [bodyBytes_cons]
      simp only [List.length_append]
      omega

/-- The scan target of `ExtractData` for a sorted file list: with pairwise
distinct internal paths, `find?` locates exactly the entry built for `f`. -/
theorem find?_fileEntriesFrom (c : List Nat → List Nat) (ib : List (List Nat)) :
    ∀ (fs : List FileInput) (f : FileInput) (off : Nat),
      (fs.map (filePathString ib)).Nodup → f ∈ fs →
      ∃ o, (fileEntriesFrom c ib off fs).find?
          (fun x => x.2 == filePathString ib f) = some (fileEntryOf c ib o f) ∧
        fileEntryOf c ib o f ∈ fileEntriesFrom c ib off fs := by
  intro fs
  induction fs with
  | nil => intro f off _ hf; exact absurd hf (List.not_mem_nil f)
  | cons g fs ih =>
    intro f off hnd hf
    by_cases hg : filePathString ib g = filePathString ib f
    · have hfg : g = f := by
        rcases List.mem_cons.mp hf with rfl | hftail
        · rfl
        · exfalso
          rw [List.map_cons, List.nodup_cons] at hnd
          exact hnd.1 (hg ▸ List.mem_map_of_mem (filePathString ib) hftail)
      subst hfg
      refine ⟨off, ?_, List.mem_cons_self _ _⟩
      show (fileEntryOf c ib off g :: _).find? _ = _
      rw [List.find?_cons_of_pos _ (by simp [fileEntryOf, hg])]
    · have hftail : f ∈ fs := by
        rcases List.mem_cons.mp hf with rfl | hftail
        · exact absurd rfl hg
        · exact hftail
      have hnd' : (fs.map (filePathString ib)).Nodup := by
        rw [List.map_cons, List.nodup_cons] at hnd
        exact hnd.2
      obtain ⟨o, hfind, hmem⟩ := ih f (off + (c g.content).length) hnd' hftail
      refine ⟨o, ?_, List.mem_cons_of_mem _ hmem⟩
      show (fileEntryOf c ib off g :: _).find? _ = _
      rw [List.find?_cons_of_neg _ (by simp [fileEntryOf, hg]), hfind]

/-! ### Structure of an archive produced by `create` -/

theorem create_archive_eq (c : List Nat → List Nat) (ib : List (List Nat))
    (ds : List DirInput) (fs : List FileInput) :
    (create c ib ds fs).archive =
      (serializeHeader (create c ib ds fs).header ++
        bodyBytes c (sortByPath FileInput.path fs)) ++
        cdSerialize (createEntries c ib ds fs) := rfl

theorem create_header_eq (c : List Nat → List Nat) (ib : List (List Nat))
    (ds : List DirInput) (fs : List FileInput) :
    (create c ib ds fs).header =
      ⟨ACF_MAGIC, ACF_VERSION,
        32 + (bodyBytes c (sortByPath FileInput.path fs)).length,
        (createEntries c ib ds fs).length,
        crc32 (cdSerialize (createEntries c ib ds fs)), 0⟩ := rfl

theorem create_archive_length (c : List Nat → List Nat) (ib : List (List Nat))
    (ds : List DirInput) (fs : List FileInput) :
    (create c ib ds fs).archive.length =
      32 + (bodyBytes c (sortByPath FileInput.path fs)).length +
        (cdSerialize (createEntries c ib ds fs)).length := by
  rw [create_archive_eq]
  simp only [List.length_append, serializeHeader_length]

theorem create_archive_drop32 (c : List Nat → List Nat) (ib : List (List Nat))
    (ds : List DirInput) (fs : List FileInput) :
    (create c ib ds fs).archive.drop 32 =
      bodyBytes c (sortByPath FileInput.path fs) ++
        cdSerialize (createEntries c ib ds fs) := by
  rw [create_archive_eq, List.append_assoc]
  exact List.drop_left' (serializeHeader_length _)

theorem create_archive_dropCD (c : List Nat → List Nat) (ib : List (List Nat))
    (ds : List DirInput) (fs : List FileInput) :
    (create c ib ds fs).archive.drop
        (32 + (bodyBytes c (sortByPath FileInput.path fs)).length) =
      cdSerialize (createEntries c ib ds fs) := by
  rw [create_archive_eq]
  exact List.drop_left' (by simp [serializeHeader_length])

/-- The pair built for a directory is well formed given the path-length and
time bounds. -/
theorem dirEntryOf_wf (ib : List (List Nat)) (d : DirInput)
    (hlen : (dirPathString ib d).length ≤ 65535) (htime : d.dostime < 256 ^ 4) :
    WFPair (dirEntryOf ib d) :=
  ⟨⟨show (1:Nat) < 256 by decide, show (0:Nat) < 256 ^ 8 by decide,
      show (0:Nat) < 256 ^ 8 by decide, show (0:Nat) < 256 ^ 8 by decide,
      show (0:Nat) < 256 ^ 4 by decide, htime,
      Nat.mod_lt _ (by decide), Nat.mod_lt _ (by decide)⟩,
    Nat.mod_eq_of_lt (by omega)⟩

/-- The pair built for a file is well formed given the size, path-length and
time bounds. -/
theorem fileEntryOf_wf (c : List Nat → List Nat) (ib : List (List Nat)) (o : Nat)
    (f : FileInput) (hlen : (filePathString ib f).length ≤ 65535)
    (htime : f.dostime < 256 ^ 4) (hsize : f.content.length < 256 ^ 8)
    (hcs : (c f.content).length < 256 ^ 8) (ho : o < 256 ^ 8) :
    WFPair (fileEntryOf c ib o f) :=
  ⟨⟨show (0:Nat) < 256 by decide, hsize, hcs, ho, crc32_lt _, htime,
      Nat.mod_lt _ (by decide), Nat.mod_lt _ (by decide)⟩,
    Nat.mod_eq_of_lt (by omega)⟩

/-- All entries `create` builds are well formed, given the input side
conditions. -/
theorem createEntries_wf (c : List Nat → List Nat) (ib : List (List Nat))
    (ds : List DirInput) (fs : List FileInput)
    (hok : CreateInputsOk c ib ds fs) :
    ∀ ep ∈ createEntries c ib ds fs, WFPair ep := by
  obtain ⟨hds, hfs, harch⟩ := hok
  rw [create_archive_length] at harch
  intro ep hep
  rcases List.mem_append.mp hep with hdir | hfile
  · obtain ⟨d, hd, rfl⟩ := List.mem_map.mp hdir
    have hd' : d ∈ ds := ((List.perm_insertionSort _ ds).mem_iff).mp hd
    obtain ⟨hlen, htime⟩ := hds d hd'
    exact dirEntryOf_wf ib d hlen htime
  · have hdrop := create_archive_drop32 c ib ds fs
    obtain ⟨f, hfmem, o, rfl, hslice, hbound⟩ :=
      fileEntriesFrom_mem c ib _ 32 _ _ hdrop _ hfile
    have hf' : f ∈ fs := ((List.perm_insertionSort _ fs).mem_iff).mp hfmem
    obtain ⟨hlen, htime, hsize⟩ := hfs f hf'
    exact fileEntryOf_wf c ib o f hlen htime hsize (by omega) (by omega)

theorem create_parseHeader (c : List Nat → List Nat) (ib : List (List Nat))
    (ds : List DirInput) (fs : List FileInput)
    (harch : (create c ib ds fs).archive.length < 256 ^ 8) :
    parseHeader (create c ib ds fs).archive = (create c ib ds fs).header := by
  rw [create_archive_length] at harch
  have hcount := length_le_cdSerialize_length (createEntries c ib ds fs)
  rw [create_archive_eq, List.append_assoc]
  refine parseHeader_serializeHeader _ _ ?_
  rw [create_header_eq]
  refine ⟨show ACF_MAGIC < 256 ^ 4 by decide, show ACF_VERSION < 256 ^ 4 by decide,
    ?_, ?_, ?_, show (0:Nat) < 256 ^ 4 by decide⟩
  · show 32 + (bodyBytes c (sortByPath FileInput.path fs)).length < 256 ^ 8
    omega
  · show (createEntries c ib ds fs).length < 256 ^ 8
    omega
  · show crc32 (cdSerialize (createEntries c ib ds fs)) < 256 ^ 4
    exact lt_of_lt_of_le (crc32_lt _) (by norm_num)

/-- `List` on an archive produced by `create` succeeds and returns exactly
the central directory `create` built. -/
theorem listArchive_create (c : List Nat → List Nat) (ib : List (List Nat))
    (ds : List DirInput) (fs : List FileInput)
    (hok : CreateInputsOk c ib ds fs) :
    listArchive (create c ib ds fs).archive = .ok (createEntries c ib ds fs) := by
  have hhdr := create_parseHeader c ib ds fs hok.2.2
  unfold listArchive
  rw [hhdr, create_header_eq]
  rw [if_neg (by simp), show ((⟨ACF_MAGIC, ACF_VERSION,
      32 + (bodyBytes c (sortByPath FileInput.path fs)).length,
      (createEntries c ib ds fs).length,
      crc32 (cdSerialize (createEntries c ib ds fs)), 0⟩ : ACFHeader)).centralDirOffset =
      32 + (bodyBytes c (sortByPath FileInput.path fs)).length from rfl,
    create_archive_dropCD]
  rw [if_neg (by simp)]
  rw [parseCD_cdSerialize _ (createEntries_wf c ib ds fs hok)]

theorem create_WFArchive (c : List Nat → List Nat) (ib : List (List Nat))
    (ds : List DirInput) (fs : List FileInput)
    (hok : CreateInputsOk c ib ds fs) :
    WFArchive (create c ib ds fs).archive (createEntries c ib ds fs) := by
  refine ⟨?_, ?_, ?_, createEntries_wf c ib ds fs hok⟩
  · rw [create_parseHeader c ib ds fs hok.2.2, create_header_eq]
  · rw [create_parseHeader c ib ds fs hok.2.2, create_header_eq]
  · rw [create_parseHeader c ib ds fs hok.2.2, create_header_eq]
    exact create_archive_dropCD c ib ds fs

/-- On an archive produced by `create` with pairwise-distinct internal
paths, `ExtractData` on a file's internal path returns exactly that file's
contents, provided the decompressor inverts the compressor. -/
theorem extractData_create (c d : List Nat → List Nat) (ib : List (List Nat))
    (ds : List DirInput) (fs : List FileInput)
    (hrt : ∀ l, d (c l) = l) (hok : CreateInputsOk c ib ds fs)
    (hnd : ((ds.map (dirPathString ib)) ++ (fs.map (filePathString ib))).Nodup)
    (f : FileInput) (hf : f ∈ fs) :
    extractData d (create c ib ds fs).archive (filePathString ib f) =
      .ok f.content := by
  have hwfa := create_WFArchive c ib ds fs hok
  rw [extractData_eq_spec d _ _ _ hwfa]
  have hndf : (fs.map (filePathString ib)).Nodup := hnd.of_append_right
  have hdisj := List.disjoint_of_nodup_append hnd
  have hsf : f ∈ sortByPath FileInput.path fs :=
    ((List.perm_insertionSort _ fs).mem_iff).mpr hf
  have hndsf : ((sortByPath FileInput.path fs).map (filePathString ib)).Nodup :=
    (((List.perm_insertionSort _ fs).map (filePathString ib)).symm).nodup hndf
  obtain ⟨o, hfind, hmem⟩ :=
    find?_fileEntriesFrom c ib (sortByPath FileInput.path fs) f 32 hndsf hsf
  have hfinde : findEntry (createEntries c ib ds fs) (filePathString ib f) =
      some (fileEntryOf c ib o f).1 := by
    unfold findEntry createEntries
    rw [List.find?_append]
    have hdirs : ((sortByPath DirInput.path ds).map (dirEntryOf ib)).find?
        (fun x => x.2 == filePathString ib f) = none := by
      rw [List.find?_eq_none]
      intro x hx
      obtain ⟨dd, hdd, rfl⟩ := List.mem_map.mp hx
      have hdd' : dd ∈ ds := ((List.perm_insertionSort _ ds).mem_iff).mp hdd
      have h1 : (dirEntryOf ib dd).2 = dirPathString ib dd := rfl
      rw [h1]
      simp only [beq_iff_eq]
      intro hcontra
      exact (hdisj (List.mem_map_of_mem (dirPathString ib) hdd')
        (hcontra ▸ List.mem_map_of_mem (filePathString ib) hf)).elim
    rw [hdirs, hfind]
    rfl
  rw [hfinde]
  -- the located entry's data range is the compressor output for f
  have hdrop := create_archive_drop32 c ib ds fs
  obtain ⟨f2, hf2, o2, heq, hslice, _⟩ :=
    fileEntriesFrom_mem c ib _ 32 _ _ hdrop _ hmem
  have hpatheq : filePathString ib f = filePathString ib f2 :=
    congrArg Prod.snd heq
  have hf2f : f2 = f :=
    List.inj_on_of_nodup_map hndsf hf2 hsf hpatheq.symm
  have hoeq : o = o2 := congrArg (fun ep => ep.1.dataOffset) heq
  rw [hf2f, ← hoeq] at hslice
  show extractEntrySpec d (create c ib ds fs).archive (fileEntryOf c ib o f).1 =
    Except.ok f.content
  unfold extractEntrySpec
  rw [if_neg (fun h => h rfl)]
  have hsl :
      (((create c ib ds fs).archive.drop (fileEntryOf c ib o f).1.dataOffset).take
        (fileEntryOf c ib o f).1.compressedSize) = c f.content := hslice
  rw [hsl, hrt]
  rw [if_neg (fun h => h rfl)]

/-- The per-entry loop of `ExtractAll` skips a prefix of Directory entries. -/
theorem extractEntries_skip_dirs (d : List Nat → List Nat) (a : List Nat)
    (des fes : List (ACFEntryData × List Nat)) (h : ∀ ep ∈ des, ep.1.type = 1) :
    extractEntries d a (des ++ fes) = extractEntries d a fes := by
  induction des with
  | nil => rfl
  | cons ep des ih =>
    obtain ⟨e, p⟩ := ep
    have he : e.type = 1 := h (e, p) (List.mem_cons_self _ _)
    show extractEntries d a ((e, p) :: (des ++ fes)) = _
    rw [show extractEntries d a ((e, p) :: (des ++ fes)) =
      (if e.type = 1 then extractEntries d a (des ++ fes) else
        if e.type = 0 then
          match extractData d a p with
          | .error err => .error err
          | .ok data =>
            match extractEntries d a (des ++ fes) with
            | .error err => .error err
            | .ok outs => .ok ((p, data) :: outs)
        else extractEntries d a (des ++ fes)) from rfl]
    rw [if_pos he]
    exact ih fun x hx => h x (List.mem_cons_of_mem _ hx)

/-- The per-entry loop of `ExtractAll` over the file entries: when every
file extracts, the writes are the (path, contents) pairs in order. -/
theorem extractEntries_fileEntries (dec : List Nat → List Nat) (a : List Nat)
    (c : List Nat → List Nat) (ib : List (List Nat)) :
    ∀ (fs : List FileInput) (off : Nat),
      (∀ f ∈ fs, extractData dec a (filePathString ib f) = .ok f.content) →
      extractEntries dec a (fileEntriesFrom c ib off fs) =
        .ok (fs.map fun f => (filePathString ib f, f.content)) := by
  intro fs
  induction fs with
  | nil => intro off _; rfl
  | cons f fs ih =>
    intro off h
    show extractEntries dec a
      ((⟨0, f.content.length, (c f.content).length, off, crc32 f.content,
          f.dostime, f.attr % 256, (filePathString ib f).length % 65536⟩,
        filePathString ib f) :: fileEntriesFrom c ib (off + (c f.content).length) fs) = _
    rw [show extractEntries dec a
      ((⟨0, f.content.length, (c f.content).length, off, crc32 f.content,
          f.dostime, f.attr % 256, (filePathString ib f).length % 65536⟩,
        filePathString ib f) :: fileEntriesFrom c ib (off + (c f.content).length) fs) =
      (if (0:Nat) = 1 then
        extractEntries dec a (fileEntriesFrom c ib (off + (c f.content).length) fs)
      else if (0:Nat) = 0 then
        match extractData dec a (filePathString ib f) with
        | .error err => .error err
        | .ok data =>
          match extractEntries dec a (fileEntriesFrom c ib (off + (c f.content).length) fs) with
          | .error err => .error err
          | .ok outs => .ok ((filePathString ib f, data) :: outs)
      else extractEntries dec a (fileEntriesFrom c ib (off + (c f.content).length) fs)) from rfl]
    rw [if_neg (by decide), if_pos rfl, h f (List.mem_cons_self _ _),
      ih _ fun g hg => h g (List.mem_cons_of_mem _ hg)]
    rfl

/-- `find?` on the (path, contents) output list locates a file's own write
when internal paths are pairwise distinct. -/
theorem find?_outs (ib : List (List Nat)) :
    ∀ (fs : List FileInput) (f : FileInput),
      (fs.map (filePathString ib)).Nodup → f ∈ fs →
      (fs.map fun g => (filePathString ib g, g.content)).find?
          (fun pr => pr.1 == filePathString ib f) =
        some (filePathString ib f, f.content) := by
  intro fs
  induction fs with
  | nil => intro f _ hf; exact absurd hf (List.not_mem_nil f)
  | cons g fs ih =>
    intro f hnd hf
    by_cases hg : filePathString ib g = filePathString ib f
    · have hfg : g = f := by
        rcases List.mem_cons.mp hf with rfl | hftail
        · rfl
        · exfalso
          rw [List.map_cons, List.nodup_cons] at hnd
          exact hnd.1 (hg ▸ List.mem_map_of_mem (filePathString ib) hftail)
      subst hfg
      rw [List.map_cons, List.find?_cons_of_pos _ (by simp [hg]), hg]
    · have hftail : f ∈ fs := by
        rcases List.mem_cons.mp hf with rfl | hftail
        · exact absurd rfl hg
        · exact hftail
      have hnd' : (fs.map (filePathString ib)).Nodup := by
        rw [List.map_cons, List.nodup_cons] at hnd
        exact hnd.2
      rw [List.map_cons, List.find?_cons_of_neg _ (by simpa using hg)]
      exact ih f hnd' hftail

/-! ### Order facts about the `std::sort` comparator -/

theorem bytesLt_asymm : ∀ {x y : List Nat}, bytesLt x y = true → bytesLt y x = false
  | [], [], h => by simp [bytesLt] at h
  | [], _ :: _, _ => rfl
  | _ :: _, [], h => by simp [bytesLt] at h
  | x :: xs, y :: ys, h => by
    simp only [bytesLt] at h ⊢
    by_cases h1 : x < y
    · have h2 : ¬ y < x := by omega
      simp [h1, h2]
    · by_cases h2 : y < x
      · simp [h1, h2] at h
      · simp only [h1, h2, if_false] at h ⊢
        exact bytesLt_asymm h

theorem bytesLt_total_eq : ∀ {x y : List Nat},
    bytesLt x y = false → bytesLt y x = false → x = y
  | [], [], _, _ => rfl
  | [], _ :: _, h, _ => by simp [bytesLt] at h
  | _ :: _, [], _, h => by simp [bytesLt] at h
  | x :: xs, y :: ys, h, h' => by
    simp only [bytesLt] at h h'
    by_cases h1 : x < y
    · simp [h1] at h
    · by_cases h2 : y < x
      · simp [h2] at h'
      · have hxy : x = y := by omega
        subst hxy
        simp only [h1, h2, if_false] at h h'
        rw [bytesLt_total_eq h h']

theorem bytesLt_trans : ∀ {x y z : List Nat},
    bytesLt x y = true → bytesLt y z = true → bytesLt x z = true
  | [], [], _, h, _ => by simp [bytesLt] at h
  | [], _ :: _, [], _, h' => by simp [bytesLt] at h'
  | [], _ :: _, _ :: _, _, _ => rfl
  | _ :: _, [], _, h, _ => by simp [bytesLt] at h
  | _ :: _, _ :: _, [], _, h' => by simp [bytesLt] at h'
  | x :: xs, y :: ys, z :: zs, h, h' => by
    simp only [bytesLt] at h h' ⊢
    by_cases h1 : x < y
    · by_cases h2 : y < z
      · simp [show x < z by omega]
      · by_cases h3 : z < y
        · simp [h2, h3] at h'
        · have hyz : y = z := by omega
          subst hyz
          simp [h1]
    · by_cases h2 : y < x
      · simp [h1, h2] at h
      · have hxy : x = y := by omega
        subst hxy
        by_cases h3 : x < z
        · simp [h3]
        · by_cases h4 : z < x
          · simp [h3, h4] at h'
          · simp only [h1, h2, h3, h4, if_false] at h h' ⊢
            exact bytesLt_trans h h'

theorem pathLt_asymm : ∀ {x y : List (List Nat)}, pathLt x y = true → pathLt y x = false
  | [], [], h => by simp [pathLt] at h
  | [], _ :: _, _ => rfl
  | _ :: _, [], h => by simp [pathLt] at h
  | x :: xs, y :: ys, h => by
    simp only [pathLt] at h ⊢
    by_cases h1 : bytesLt x y = true
    · have h2 : bytesLt y x = false := bytesLt_asymm h1
      simp [h1, h2]
    · by_cases h2 : bytesLt y x = true
      · simp [h1, h2] at h
      · simp only [h1, h2, if_false] at h ⊢
        simp only [Bool.not_eq_true] at h1 h2
        simp [h1, h2] at h ⊢
        exact pathLt_asymm h

theorem pathLt_total_eq : ∀ {x y : List (List Nat)},
    pathLt x y = false → pathLt y x = false → x = y
  | [], [], _, _ => rfl
  | [], _ :: _, h, _ => by simp [pathLt] at h
  | _ :: _, [], _, h => by simp [pathLt] at h
  | x :: xs, y :: ys, h, h' => by
    simp only [pathLt] at h h'
    by_cases h1 : bytesLt x y = true
    · simp [h1] at h
    · by_cases h2 : bytesLt y x = true
      · simp [h2] at h'
      · simp only [Bool.not_eq_true] at h1 h2
        have hxy : x = y := bytesLt_total_eq h1 h2
        subst hxy
        simp only [h1, h2, if_false] at h h'
        simp [h1] at h h'
        rw [pathLt_total_eq h h']

theorem pathLt_trans : ∀ {x y z : List (List Nat)},
    pathLt x y = true → pathLt y z = true → pathLt x z = true
  | [], [], _, h, _ => by simp [pathLt] at h
  | [], _ :: _, [], _, h' => by simp [pathLt] at h'
  | [], _ :: _, _ :: _, _, _ => rfl
  | _ :: _, [], _, h, _ => by simp [pathLt] at h
  | _ :: _, _ :: _, [], _, h' => by simp [pathLt] at h'
  | x :: xs, y :: ys, z :: zs, h, h' => by
    simp only [pathLt] at h h' ⊢
    by_cases h1 : bytesLt x y = true
    · by_cases h2 : bytesLt y z = true
      · simp [bytesLt_trans h1 h2]
      · by_cases h3 : bytesLt z y = true
        · simp [h2, h3] at h'
        · simp only [Bool.not_eq_true] at h2 h3
          have hyz : y = z := bytesLt_total_eq h2 h3
          subst hyz
          simp [h1]
    · by_cases h2 : bytesLt y x = true
      · simp [h1, h2] at h
      · simp only [Bool.not_eq_true] at h1 h2
        have hxy : x = y := bytesLt_total_eq h1 h2
        subst hxy
        by_cases h3 : bytesLt x z = true
        · simp [h3]
        · by_cases h4 : bytesLt z x = true
          · simp [h3, h4] at h'
          · simp only [Bool.not_eq_true] at h3 h4
            simp only [h1, h3, h4, if_false] at h h' ⊢
            simp [h1] at h
            exact pathLt_trans h h'

/-- The sorted output of `Create`'s `std::sort` is strictly increasing in
`fs::path` order whenever the extracted paths are pairwise distinct. -/
theorem sortByPath_chain {α : Type} (path : α → List (List Nat)) (l : List α)
    (hnd : (l.map path).Nodup) :
    List.Chain' (fun a b => pathLt (path a) (path b) = true) (sortByPath path l) := by
  haveI : IsTotal α (fun a b => pathLt (path b) (path a) = false) := by
    constructor
    intro a b
    by_cases h : pathLt (path b) (path a) = true
    · exact Or.inr (pathLt_asymm h)
    · exact Or.inl (Bool.not_eq_true _ ▸ Bool.of_not_eq_true h)
  haveI : IsTrans α (fun a b => pathLt (path b) (path a) = false) := by
    constructor
    intro a b c hab hbc
    by_cases h : pathLt (path c) (path a) = true
    · by_cases h2 : pathLt (path a) (path b) = true
      · exact absurd (pathLt_trans h h2) (by rw [hbc]; simp)
      · have : path a = path b :=
          pathLt_total_eq (Bool.of_not_eq_true h2) hab
        rw [← this] at hbc
        exact absurd h (by rw [hbc]; simp)
    · exact Bool.of_not_eq_true h
  have hs : List.Sorted (fun a b => pathLt (path b) (path a) = false)
      (sortByPath path l) := List.sorted_insertionSort _ l
  have hnd' : ((sortByPath path l).map path).Nodup :=
    ((List.perm_insertionSort _ l).map path).symm.nodup hnd
  have hne : List.Pairwise (fun a b => path a ≠ path b) (sortByPath path l) :=
    (List.pairwise_map).mp hnd'
  refine List.Pairwise.chain' ?_
  refine (hs.and hne).imp ?_
  intro a b hab
  obtain ⟨hle, hneq⟩ := hab
  by_cases h : pathLt (path a) (path b) = true
  · exact h
  · exact absurd (pathLt_total_eq (Bool.of_not_eq_true h) hle) hneq

theorem mem_sortByPath {α : Type} (path : α → List (List Nat)) (l : List α)
    (x : α) : x ∈ sortByPath path l ↔ x ∈ l :=
  (List.perm_insertionSort _ l).mem_iff

theorem fileEntriesFrom_map_type (c : List Nat → List Nat) (ib : List (List Nat)) :
    ∀ (fs : List FileInput) (off : Nat),
      (fileEntriesFrom c ib off fs).map (fun ep => ep.1.type) =
        List.replicate fs.length 0
  | [], _ => rfl
  | f :: fs, off => by
    simp only [fileEntriesFrom, List.map_cons, List.length_cons,
      fileEntriesFrom_map_type c ib fs]
    rfl

/-- The `pathLength` field `Create` stores for a file is the internal path
length truncated by `static_cast<uint16_t>`. -/
theorem fileEntryOf_pathString_length (c : List Nat → List Nat)
    (ib : List (List Nat)) (o : Nat) (f : FileInput) :
    (fileEntryOf c ib o f).1.pathLength = (filePathString ib f).length % 65536 := rfl

/-- `ExtractAll` after a successful `List` is the per-entry loop over the
returned central directory. -/
theorem extractAll_eq (d : List Nat → List Nat) (a : List Nat)
    (es : List (ACFEntryData × List Nat)) (h : listArchive a = .ok es) :
    extractAll d a = extractEntries d a es := by
  unfold extractAll
  rw [h]

/-! ## The claims -/

/-- **C5.** CRC32 incremental law: for all byte strings `a` and `b`,
`crc32 (a ++ b) = crc32_update (crc32 a) b` (with
`crc32 x = crc32_update 0 x`). -/
theorem claim_C5_crc32_incremental (a b : List Nat) :
    crc32 (a ++ b) = crc32_update (crc32 a) b := by
  unfold crc32 crc32_update
  rw [List.foldl_append]
  congr 1
  conv_rhs => rw [Nat.xor_assoc, Nat.xor_self, Nat.xor_zero]

/-- **C2, counterexample.** The claim says the serialized file header
occupies 36 bytes and that an empty `Create` records
`centralDirOffset = 36`.  In the code `sizeof(ACFHeader)` (packed:
u32+u32+u64+u64+u32+u32) is 32 bytes—36 is the size of the *entry
descriptor*—so both parts of the claim fail. -/
theorem claim_C2_counterexample :
    (serializeHeader ⟨ACF_MAGIC, ACF_VERSION, 0, 0, 0, 0⟩).length ≠ 36 ∧
    (create id [] [] []).header.centralDirOffset ≠ 36 :=
  ⟨by decide, by decide⟩

/-- **C2, amended.** The serialized file header occupies exactly 32 bytes;
`Create` applied to an empty input set produces an archive with
`entryCount = 0`, `centralDirOffset = 32`, a zero-length central directory
(the archive is exactly the 32 header bytes), and `centralDirCRC32 = 0`,
the CRC32 of the empty byte string. -/
theorem claim_C2_header_size_and_empty_create (h : ACFHeader)
    (c : List Nat → List Nat) (ib : List (List Nat)) :
    (serializeHeader h).length = 32 ∧
    (create c ib [] []).header.entryCount = 0 ∧
    (create c ib [] []).header.centralDirOffset = 32 ∧
    (create c ib [] []).centralDirectory = [] ∧
    (create c ib [] []).archive.length = 32 ∧
    (create c ib [] []).header.centralDirCRC32 = 0 ∧
    crc32 [] = 0 := by
  refine ⟨serializeHeader_length h, rfl, rfl, rfl, ?_, ?_, ?_⟩
  · show ((serializeHeader _ ++ []) ++ []).length = 32
    simp [serializeHeader_length]
  · show crc32 [] = 0
    decide
  · decide

/-- **C3.** The claim (with the specification) requires `List` to fail with
`BadArchive` when the declared entries would overrun the central-directory
buffer.  `truncatedCDArchive` declares `entryCount = 1` over an empty
central directory whose CRC matches (`crc32 [] = 0`): `ACFArchiver::List`
silently `break`s out of the walk (acf.cc:560) and returns an empty list
instead of failing. -/
theorem claim_C3_truncation_not_rejected :
    listArchive truncatedCDArchive = .ok [] ∧
    listArchive truncatedCDArchive ≠ .error .BadArchive := by
  have h : listArchive truncatedCDArchive = .ok [] := by decide
  exact ⟨h, by rw [h]; exact fun hc => Except.noConfusion hc⟩

/-- **C4, counterexample.** `archiveAFlipped` is the valid archive
`archiveA` with one byte flipped inside its central directory (the entry's
`filedatetime` byte).  `List` fails with `BadArchive`, but `ExtractData`
on the entry `a` *succeeds* and returns the file's bytes — refuting the
claim that `extract_one` fails with `BadArchive` because list-equivalent
validation runs first. -/
theorem claim_C4_counterexample :
    listArchive archiveAFlipped = .error .BadArchive ∧
    extractData id archiveAFlipped [97] = .ok [104, 105] :=
  ⟨by decide, by decide⟩

/-- **C4, amended.** `List` fails with `BadArchive` on central-directory
corruption, but `ExtractData` performs no central-directory CRC validation
before locating the entry: it can never fail with `BadArchive` at all; on
a corrupted archive it succeeds or fails with an error determined by the
bytes it actually uses. -/
theorem claim_C4_extractData_never_BadArchive (d : List Nat → List Nat)
    (a name : List Nat) : extractData d a name ≠ .error .BadArchive := by
  intro hcontra
  simp only [extractData] at hcontra
  split at hcontra
  · simp at hcontra
  · split at hcontra
    · simp at hcontra
    · split at hcontra
      · simp at hcontra
      · split at hcontra
        · simp at hcontra
        · simp at hcontra

/-- **C6, counterexample.** For the input files `a/c` (components `a`,`c`)
and `a!b` (one component), `std::sort` on `fs::path` puts `a/c` first
(component `"a"` < `"a!b"`), so the stored strings are `"a\c", "a!b"` —
and `"a\c" < "a!b"` fails in byte order (`'\' = 0x5C > '!' = 0x21`): the
stored path strings of the file group are not strictly ascending in
lexicographic byte order. -/
theorem claim_C6_counterexample :
    (create id [] [] [fileAC, fileAB]).pathStrings = [[97, 92, 99], [97, 33, 98]] ∧
    ¬ List.Chain' (fun x y => bytesLt x y = true)
        (create id [] [] [fileAC, fileAB]).pathStrings := by
  have h : (create id [] [] [fileAC, fileAB]).pathStrings =
      [[97, 92, 99], [97, 33, 98]] := by decide
  refine ⟨h, ?_⟩
  rw [h]
  intro hch
  have hrel : bytesLt [97, 92, 99] [97, 33, 98] = true := (List.chain'_cons.mp hch).1
  exact absurd hrel (by decide)

/-- **C6, amended.** In the central directory of every archive produced by
`Create`, all Directory entries precede all File entries; within each of
the two groups, entries appear in strictly ascending `fs::path`
(component-wise lexicographic) order of their source paths, and the stored
strings are the internal path strings of the entries in that order.  (As
the counterexample shows, that order need not be byte-lexicographic order
of the stored strings.) -/
theorem claim_C6_ordering (c : List Nat → List Nat) (ib : List (List Nat))
    (ds : List DirInput) (fs : List FileInput)
    (hndd : (ds.map DirInput.path).Nodup) (hndf : (fs.map FileInput.path).Nodup) :
    (create c ib ds fs).centralDirectory.map ACFEntryData.type =
      List.replicate ds.length 1 ++ List.replicate fs.length 0 ∧
    List.Chain' (fun a b => pathLt a.path b.path = true) (sortByPath DirInput.path ds) ∧
    List.Chain' (fun a b => pathLt a.path b.path = true) (sortByPath FileInput.path fs) ∧
    (create c ib ds fs).pathStrings =
      ((sortByPath DirInput.path ds).map (dirPathString ib)) ++
        ((sortByPath FileInput.path fs).map (filePathString ib)) := by
  refine ⟨?_, sortByPath_chain DirInput.path ds hndd,
    sortByPath_chain FileInput.path fs hndf, ?_⟩
  · show ((createEntries c ib ds fs).map Prod.fst).map ACFEntryData.type = _
    rw [List.map_map]
    simp only [Function.comp_def]
    unfold createEntries
    rw [List.map_append, fileEntriesFrom_map_type]
    congr 1
    · rw [show (ds.length) = ((sortByPath DirInput.path ds).length) from
        (List.length_insertionSort _ ds).symm]
      rw [List.eq_replicate_iff]
      refine ⟨by simp, ?_⟩
      intro b hb
      obtain ⟨ep, hep, rfl⟩ := List.mem_map.mp hb
      obtain ⟨dd, _, rfl⟩ := List.mem_map.mp hep
      rfl
    · rw [show (sortByPath FileInput.path fs) =
        List.insertionSort (fun a b => pathLt (FileInput.path b) (FileInput.path a) = false) fs
        from rfl, List.length_insertionSort]
  · show (createEntries c ib ds fs).map Prod.snd = _
    unfold createEntries
    rw [List.map_append, fileEntriesFrom_map_snd, List.map_map]
    rfl

/-- **C7.** The claim says `Create` rejects inputs whose normalized
internal path is 65536 bytes or longer.  It does not: acf.cc:199 is a bare
`static_cast<uint16_t>(internalPath.length())`, so for `hugePathFile`
(internal path of 65536 `'a'` bytes) the entry *is* stored, with a
truncated `pathLength` of `65536 % 65536 = 0` while the stored path string
still has 65536 bytes — a corrupt archive instead of a create-time
failure. -/
theorem claim_C7_long_path_not_rejected :
    (create id [] [] [hugePathFile]).centralDirectory.map ACFEntryData.pathLength
        = [0] ∧
    (create id [] [] [hugePathFile]).pathStrings.map List.length = [65536] := by
  have hlen : (filePathString [] hugePathFile).length = 65536 :=
    List.length_replicate 65536 97
  have hcd : (create id [] [] [hugePathFile]).centralDirectory =
      [(fileEntryOf id [] 32 hugePathFile).1] := rfl
  have hps : (create id [] [] [hugePathFile]).pathStrings =
      [filePathString [] hugePathFile] := rfl
  constructor
  · rw [hcd, List.map_cons, List.map_nil,
      fileEntryOf_pathString_length id [] 32 hugePathFile, hlen]
  · rw [hps, List.map_cons, List.map_nil, hlen]

/-- **C8.** Under a well-formed central directory, `ExtractData` fails with
`NotFound` iff no entry's path is exactly equal to the requested path, and
fails with `InvalidOperation` when the first matching entry has type
Directory. -/
theorem claim_C8_notFound_invalidOperation (d : List Nat → List Nat)
    (a name : List Nat) (ps : List (ACFEntryData × List Nat))
    (hwf : WFArchive a ps) :
    (extractData d a name = .error .NotFound ↔ ∀ ep ∈ ps, ep.2 ≠ name) ∧
    (∀ e, findEntry ps name = some e → e.type = 1 →
      extractData d a name = .error .InvalidOperation) := by
  constructor
  · rw [extractData_eq_spec d a name ps hwf]
    cases hfind : findEntry ps name with
    | none =>
      have hforall : ∀ ep ∈ ps, ep.2 ≠ name := by
        intro ep hep hcontra
        unfold findEntry at hfind
        rw [Option.map_eq_none'] at hfind
        rw [List.find?_eq_none] at hfind
        exact hfind ep hep (by simp [hcontra])
      exact ⟨fun _ => hforall, fun _ => rfl⟩
    | some e =>
      constructor
      · intro hcontra
        exfalso
        have hcontra2 : extractEntrySpec d a e = Except.error ACFError.NotFound :=
          hcontra
        simp only [extractEntrySpec] at hcontra2
        split at hcontra2
        · simp at hcontra2
        · split at hcontra2
          · simp at hcontra2
          · simp at hcontra2
      · intro hall
        exfalso
        unfold findEntry at hfind
        rw [Option.map_eq_some'] at hfind
        obtain ⟨ep, hfind', _⟩ := hfind
        have hmem := List.mem_of_find?_eq_some hfind'
        have hpred := List.find?_some hfind'
        rw [beq_iff_eq] at hpred
        exact hall ep hmem hpred
  · intro e hfind htype
    rw [extractData_eq_spec d a name ps hwf, hfind]
    show extractEntrySpec d a e = _
    unfold extractEntrySpec
    rw [if_pos (by omega)]

/-- **C8, witness.** A concrete well-formed archive (a Directory entry `d\`
and a File entry `a`), queried for the absent path `x`. -/
theorem claim_C8_witness :
    WFArchive wfArchiveBytes wfEntries ∧
    ((extractData id wfArchiveBytes [120] = .error .NotFound ↔
        ∀ ep ∈ wfEntries, ep.2 ≠ [120]) ∧
      (∀ e, findEntry wfEntries [120] = some e → e.type = 1 →
        extractData id wfArchiveBytes [120] = .error .InvalidOperation)) :=
  ⟨by decide, claim_C8_notFound_invalidOperation id wfArchiveBytes [120]
    wfEntries (by decide)⟩

/-- **C10.** With duplicate paths in the central directory, `ExtractData`
operates on the *first* matching entry: its result is exactly
`extractEntrySpec` of the entry `findEntry` returns (that entry's type
check, data range, and CRC), never a later duplicate's. -/
theorem claim_C10_first_match (d : List Nat → List Nat) (a name : List Nat)
    (ps : List (ACFEntryData × List Nat)) (hwf : WFArchive a ps)
    (e : ACFEntryData) (hfind : findEntry ps name = some e) :
    extractData d a name = extractEntrySpec d a e := by
  rw [extractData_eq_spec d a name ps hwf, hfind]

/-- **C10, witness.** `dupArchiveBytes` has two File entries at path `a`
whose data decode to `[5]` and `[6]` respectively; extraction returns the
first one's bytes `[5]`. -/
theorem claim_C10_witness :
    WFArchive dupArchiveBytes dupEntries ∧
    findEntry dupEntries [97] = some ⟨0, 1, 1, 32, crc32 [5], 0, 0, 1⟩ ∧
    extractData id dupArchiveBytes [97] =
      extractEntrySpec id dupArchiveBytes ⟨0, 1, 1, 32, crc32 [5], 0, 0, 1⟩ ∧
    extractEntrySpec id dupArchiveBytes ⟨0, 1, 1, 32, crc32 [5], 0, 0, 1⟩ =
      .ok [5] :=
  ⟨by decide, by decide,
    claim_C10_first_match id dupArchiveBytes [97] dupEntries (by decide) _ (by decide),
    by decide⟩

/-- **C9.** For every archive produced by `create` (whose total size fits
the 64-bit header fields), the CRC32 of the byte range
`[centralDirOffset, EOF)` equals the `centralDirCRC32` field stored in the
file header, and the stored `entryCount` equals the number of
(descriptor, path) pairs in the central directory. -/
theorem claim_C9_cd_crc_and_count (c : List Nat → List Nat) (ib : List (List Nat))
    (ds : List DirInput) (fs : List FileInput)
    (harch : (create c ib ds fs).archive.length < 256 ^ 8) :
    crc32 ((create c ib ds fs).archive.drop
        (parseHeader (create c ib ds fs).archive).centralDirOffset) =
      (parseHeader (create c ib ds fs).archive).centralDirCRC32 ∧
    (parseHeader (create c ib ds fs).archive).entryCount =
      (create c ib ds fs).centralDirectory.length := by
  rw [create_parseHeader c ib ds fs harch, create_header_eq]
  constructor
  · show crc32 ((create c ib ds fs).archive.drop
        (32 + (bodyBytes c (sortByPath FileInput.path fs)).length)) =
      crc32 (cdSerialize (createEntries c ib ds fs))
    rw [create_archive_dropCD]
  · show (createEntries c ib ds fs).length =
      ((createEntries c ib ds fs).map Prod.fst).length
    rw [List.length_map]

/-- **C9, witness.** The single-file archive for `fileA`. -/
theorem claim_C9_witness :
    (create id [] [] [fileA]).archive.length < 256 ^ 8 ∧
    (crc32 ((create id [] [] [fileA]).archive.drop
        (parseHeader (create id [] [] [fileA]).archive).centralDirOffset) =
      (parseHeader (create id [] [] [fileA]).archive).centralDirCRC32 ∧
    (parseHeader (create id [] [] [fileA]).archive).entryCount =
      (create id [] [] [fileA]).centralDirectory.length) :=
  ⟨by decide, claim_C9_cd_crc_and_count id [] [] [fileA] (by decide)⟩

/-- **C1.** Round-trip: `create` over enumerated inputs with pairwise
distinct internal paths (each fitting the 16-bit path-length field, with
sizes fitting the 64-bit fields), followed by `extractAll` with a
decompressor inverting the compressor, writes every input file's exact
contents at its internal path. -/
theorem claim_C1_roundtrip (c d : List Nat → List Nat) (ib : List (List Nat))
    (ds : List DirInput) (fs : List FileInput)
    (hrt : ∀ l, d (c l) = l)
    (hok : CreateInputsOk c ib ds fs)
    (hnd : ((ds.map (dirPathString ib)) ++ (fs.map (filePathString ib))).Nodup) :
    extractAll d (create c ib ds fs).archive = .ok (createOuts ib fs) ∧
    ∀ f ∈ fs, (createOuts ib fs).find? (fun pr => pr.1 == filePathString ib f) =
      some (filePathString ib f, f.content) := by
  have hndf : (fs.map (filePathString ib)).Nodup := hnd.of_append_right
  have hndsf : ((sortByPath FileInput.path fs).map (filePathString ib)).Nodup :=
    (((List.perm_insertionSort _ fs).map (filePathString ib)).symm).nodup hndf
  constructor
  · rw [extractAll_eq d _ _ (listArchive_create c ib ds fs hok)]
    unfold createEntries
    rw [extractEntries_skip_dirs d _ _ _
      (fun ep hep => by
        obtain ⟨dd, _, rfl⟩ := List.mem_map.mp hep
        rfl)]
    rw [extractEntries_fileEntries d ((create c ib ds fs).archive) c ib
      (sortByPath FileInput.path fs) 32
      (fun f hf => extractData_create c d ib ds fs hrt hok hnd f
        ((mem_sortByPath FileInput.path fs f).mp hf))]
    rfl
  · intro f hf
    have hsf : f ∈ sortByPath FileInput.path fs :=
      ((List.perm_insertionSort _ fs).mem_iff).mpr hf
    exact find?_outs ib (sortByPath FileInput.path fs) f hndsf hsf

/-- **C1, witness.** One directory `d` and one file `a` containing `hi`,
with the identity compressor model. -/
theorem claim_C1_witness :
    (∀ l : List Nat, id (id l) = l) ∧
    CreateInputsOk id [] [dirD] [fileA] ∧
    (([dirD].map (dirPathString [])) ++ ([fileA].map (filePathString []))).Nodup ∧
    (extractAll id (create id [] [dirD] [fileA]).archive =
        .ok (createOuts [] [fileA]) ∧
      ∀ f ∈ [fileA], (createOuts [] [fileA]).find?
          (fun pr => pr.1 == filePathString [] f) =
        some (filePathString [] f, f.content)) :=
  ⟨fun _ => rfl, by decide, by decide,
    claim_C1_roundtrip id id [] [dirD] [fileA] (fun _ => rfl) (by decide) (by decide)⟩

/-- **C6, witness** (for the amended ordering claim): one directory and one
file. -/
theorem claim_C6_witness :
    ([dirD].map DirInput.path).Nodup ∧ ([fileA].map FileInput.path).Nodup ∧
    ((create id [] [dirD] [fileA]).centralDirectory.map ACFEntryData.type =
        List.replicate 1 1 ++ List.replicate 1 0 ∧
      List.Chain' (fun a b => pathLt a.path b.path = true)
        (sortByPath DirInput.path [dirD]) ∧
      List.Chain' (fun a b => pathLt a.path b.path = true)
        (sortByPath FileInput.path [fileA]) ∧
      (create id [] [dirD] [fileA]).pathStrings =
        ((sortByPath DirInput.path [dirD]).map (dirPathString [])) ++
          ((sortByPath FileInput.path [fileA]).map (filePathString []))) :=
  ⟨by decide, by decide,
    claim_C6_ordering id [] [dirD] [fileA] (by decide) (by decide)⟩

end ACF
